import Mathlib

/-!
Verification development for the execution core of the llxprt coding agent.

Part 1 embeds `packages/core/src/tools/read-many-files.ts`
(`ReadManyFilesTool.execute` and its helpers) as pure Lean functions.
External collaborators (the glob library, the file-discovery service, the
filesystem, `detectFileType`, `processSingleFileContent`) are modelled as
explicit read-only inputs collected in `RmfEnv`; everything the tool itself
computes is translated statement by statement from the source.

Part 2 embeds `packages/core/src/utils/memoryDiscovery.ts`
(`findProjectRoot`, `getContextFilePathsInternalForEachDir`,
`readContextFiles`, `concatenateInstructions`,
`loadServerHierarchicalMemory`).  Directories are modelled as lists of path
segments (root is `[]`), so `path.dirname` is `List.dropLast` and
`path.join dir name` is `dir ++ [name]`.
-/

/-- Boolean test that the first list starts the second. -/
def isPreB : List Char → List Char → Bool
  | [], _ => true
  | _ :: _, [] => false
  | a :: as, b :: bs => a = b && isPreB as bs

/-- JS-style substring test on character lists:
`needle` occurs contiguously inside `hay`. -/
def subOf : List Char → List Char → Bool
  | n, [] => isPreB n []
  | n, c :: t => isPreB n (c :: t) || subOf n t

/-- Embedding of JavaScript `hay.includes(needle)` for strings. -/
def strIncludes (hay needle : String) : Bool :=
  subOf needle.data hay.data

/-- Embedding of JavaScript `String.prototype.toLowerCase` (ASCII,
character-wise, as used on extensions and glob patterns). -/
def lowerStr (s : String) : String := ⟨s.data.map Char.toLower⟩

/-- Character-wise take, embedding `String.prototype.substring(0, n)`. -/
def strTake (s : String) (n : Nat) : String := ⟨s.data.take n⟩

/-- Embedding of `String.prototype.trim`: strip whitespace at both ends. -/
def strTrim (s : String) : String :=
  ⟨((s.data.dropWhile Char.isWhitespace).reverse.dropWhile Char.isWhitespace).reverse⟩

/-- Boolean lexicographic order on character lists (code-unit comparison,
as the JavaScript default array sort uses on strings). -/
def charListLe : List Char → List Char → Bool
  | [], _ => true
  | _ :: _, [] => false
  | a :: as, b :: bs => if a = b then charListLe as bs else decide (a.val < b.val)

/-- Boolean string order backing the embedded `Array.prototype.sort()`. -/
def strLeB (a b : String) : Bool := charListLe a.data b.data

/-- Ordered insertion used by the embedded sort. -/
def insertLe (le : α → α → Bool) (x : α) : List α → List α
  | [] => [x]
  | y :: ys => if le x y then x :: y :: ys else y :: insertLe le x ys

/-- Comparison sort (model of `Array.prototype.sort(cmp)`; on the
duplicate-free lists it is applied to, any comparison sort agrees). -/
def insSort (le : α → α → Bool) : List α → List α
  | [] => []
  | x :: xs => insertLe le x (insSort le xs)

/-- Embedded `sortedFiles = Array.from(filesToConsider).sort()`. -/
def sortStr (l : List String) : List String := insSort strLeB l

/-- `Set.add` on an insertion-ordered list: JS `Set` keeps first insertion. -/
def addUnique [DecidableEq α] (l : List α) (x : α) : List α :=
  if x ∈ l then l else l ++ [x]

/-- Deduplication keeping first occurrences, relative to already-seen
elements; `Array.from` of a JS `Set` built by successive insertions. -/
def dedupSeen [DecidableEq α] (seen : List α) : List α → List α
  | [] => []
  | x :: xs => if x ∈ seen then dedupSeen seen xs else x :: dedupSeen (seen ++ [x]) xs

/-- `Array.from(new Set(l))`. -/
def dedupFirst [DecidableEq α] (l : List α) : List α := dedupSeen [] l

/-- `Math.ceil(a / b)` on naturals (`b = 0` gives `0`, matching the
behaviour of the sampling loop under an infinite JS step). -/
def natCeilDiv (a b : Nat) : Nat := (a + b - 1) / b

instance {ε α : Type} [DecidableEq ε] [DecidableEq α] : DecidableEq (Except ε α) :=
  fun x y =>
    match x, y with
    | .error a, .error b =>
      if h : a = b then .isTrue (by rw [h]) else .isFalse (fun hc => h (by cases hc; rfl))
    | .ok a, .ok b =>
      if h : a = b then .isTrue (by rw [h]) else .isFalse (fun hc => h (by cases hc; rfl))
    | .error _, .ok _ => .isFalse (fun hc => Except.noConfusion hc)
    | .ok _, .error _ => .isFalse (fun hc => Except.noConfusion hc)

/-! ## Part 1: data model of `read-many-files.ts` -/

/-- The ephemeral `tool-output-truncate-mode` setting. -/
inductive TruncMode
  | warn
  | truncate
  | sample
deriving DecidableEq

/-- Result of `detectFileType`; only `image` and `pdf` are special-cased by
`ReadManyFilesTool.execute`, every other answer is collapsed into `other`. -/
inductive FType
  | image
  | pdf
  | other
deriving DecidableEq

/-- Result of `processSingleFileContent`: a read error, text content (with
the `isTruncated` flag), or non-text content (an opaque inline `Part`). -/
inductive ReadOutcome
  | failure (msg : String)
  | textContent (content : String) (isTruncated : Bool)
  | binaryContent (b : Nat)
deriving DecidableEq

/-- One entry of the `skippedFiles` array: `{path, reason}`. -/
structure SkipRecord where
  path : String
  reason : String
deriving DecidableEq

/-- One element of the `contentParts` array: a string part or an opaque
image/pdf `Part`. -/
inductive LlmPart
  | str (s : String)
  | blob (b : Nat)
deriving DecidableEq

/-- The `llmContent` of a `ToolResult`: a bare string on the early-return
paths, the `contentParts` list otherwise. -/
inductive LlmContent
  | str (s : String)
  | parts (ps : List LlmPart)
deriving DecidableEq

/-- Observable outcome of one `execute` call.  Besides `llmContent` it
exposes the `skippedFiles` and `processedFilesRelativePaths` arrays as they
stand when the function returns (the source surfaces them in the
human-readable `returnDisplay`, whose literal text no claim references). -/
structure ExecResult where
  llmContent : LlmContent
  skippedFiles : List SkipRecord
  processedFiles : List String
deriving DecidableEq

/-- The parameters of one call that the embedded code inspects:
`params.paths` and `params.include` (the remaining parameters only shape
the external glob invocation, which is part of `RmfEnv`). -/
structure RmfParams where
  paths : List String
  includePats : List String
deriving DecidableEq

/-- External collaborators of `ReadManyFilesTool.execute`, all read-only:
the stream of glob results across the workspace directories (the
insertions into the `allEntries` set, deduplicated by `execute` itself), the effective ignore flags, the survivors of
the git/llxprt ignore filters, `WorkspaceContext.isPathWithinWorkspace`,
the relative-display rendering `path.relative(targetDir, p)` with slash normalisation, `fs.stat` sizes,
`detectFileType`, `processSingleFileContent`, and the four ephemeral
limits. -/
structure RmfEnv where
  globEntries : List String
  respectGitIgnore : Bool
  respectLlxprtIgnore : Bool
  gitFiltered : List String
  llxprtFiltered : List String
  isWithinWorkspace : String → Bool
  relPath : String → String
  statSize : String → Except String Nat
  fileType : String → FType
  readFile : String → ReadOutcome
  maxFileCount : Nat
  maxTokens : Nat
  truncateMode : TruncMode
  fileSizeLimit : Nat

/-- `estimateTokens`: `Math.ceil(text.length / 4)`. -/
def estimateTokens (text : String) : Nat := (text.length + 3) / 4

/-- `DEFAULT_OUTPUT_SEPARATOR_FORMAT` instantiated with the file path. -/
def sepFor (fp : String) : String := "--- " ++ fp ++ " ---"

/-- Warning prepended to content whose single-file read was truncated. -/
def truncNotice : String :=
  "[WARNING: This file was truncated. To view the full content, use the \x27read_file\x27 tool on this specific file.]\n\n"

/-- Marker appended when the truncate policy cuts content to the budget. -/
def tokenTruncMarker : String := "\n\n[CONTENT TRUNCATED DUE TO TOKEN LIMIT]"

/-- Fallback `llmContent` when no parts were produced. -/
def noFilesMsg : String := "No files matching the criteria were found or all were skipped."

/-- Reason string of the security `SkipRecord`. -/
def secReason (p : String) : String :=
  "Security: Glob library returned path outside workspace. Path: " ++ p

/-- Reason string of a per-file size `SkipRecord` (`Math.round(x/1024)` is
`(x + 512) / 1024` on naturals). -/
def sizeSkipReason (size limit : Nat) : String :=
  "file size (" ++ toString ((size + 512) / 1024) ++ "KB) exceeds limit (" ++
    toString ((limit + 512) / 1024) ++ "KB)"

/-- Reason string for an image/pdf that no `paths` pattern requested. -/
def assetSkipReason : String :=
  "asset file (image/pdf) was not explicitly requested by name or extension"

/-- Characters after the last slash. -/
def basenameChars (cs : List Char) : List Char :=
  cs.foldl (fun acc c => if c = '/' then [] else acc ++ [c]) []

/-- `path.basename`: the last slash-separated component. -/
def basenameOf (p : String) : String := ⟨basenameChars p.data⟩

/-- Index of the last dot of a basename, if any. -/
def lastDotIdx (b : List Char) : Option Nat :=
  ((List.range b.length).filter (fun i => b.getD i ' ' = '.')).getLast?

/-- `path.extname` on the characters of a basename: the suffix from the
last dot, unless that dot is the leading character. -/
def extnameB (b : List Char) : List Char :=
  match lastDotIdx b with
  | some i => if 0 < i then b.drop i else []
  | none => []

/-- `path.extname(p)`. -/
def pathExtname (p : String) : String := ⟨extnameB (basenameOf p).data⟩

/-- `path.basename(p, ext)`: the basename, with `ext` removed when it is a
proper suffix of it. -/
def basenameStrip (p ext : String) : String :=
  let b := basenameOf p
  if ext ≠ "" ∧ ext.data.length < b.data.length ∧ ext.data.isSuffixOf b.data = true then
    ⟨b.data.take (b.data.length - ext.data.length)⟩
  else b

/-- The basename with its own extension removed (used to state C10). -/
def basenameNoExt (p : String) : String :=
  let b := basenameOf p
  ⟨b.data.take (b.data.length - (extnameB b.data).length)⟩

/-- The `requestedExplicitly` check of lines 523-529: some pattern of
`params.paths` contains the lower-cased extension (pattern lower-cased
too) or contains `path.basename(filePath, fileExtension)`. -/
def requestedExplicitly (patterns : List String) (p : String) : Bool :=
  let fileExtension := lowerStr (pathExtname p)
  let fileName := basenameStrip p fileExtension
  patterns.any (fun pat => strIncludes (lowerStr pat) fileExtension || strIncludes pat fileName)

/-- State of the entry-filtering loop of lines 382-431. -/
structure PhaseAState where
  files : List String
  skips : List SkipRecord
  gitIgnored : Nat
  llxIgnored : Nat
deriving DecidableEq

/-- One iteration of the entry-filtering loop: the workspace-boundary
check, then the git-ignore and llxprt-ignore membership checks, and
finally admission into `filesToConsider`. -/
def phaseAStep (env : RmfEnv) (st : PhaseAState) (p : String) : PhaseAState :=
  if env.isWithinWorkspace p = false then
    { st with skips := st.skips ++ [⟨p, secReason p⟩] }
  else if env.respectGitIgnore = true ∧ p ∉ env.gitFiltered then
    { st with gitIgnored := st.gitIgnored + 1 }
  else if env.respectLlxprtIgnore = true ∧ p ∉ env.llxprtFiltered then
    { st with llxIgnored := st.llxIgnored + 1 }
  else { st with files := st.files ++ [p] }

/-- The entry-filtering loop over the deduplicated glob entries. -/
def rmfPhaseA (env : RmfEnv) : PhaseAState :=
  (dedupFirst env.globEntries).foldl (phaseAStep env) ⟨[], [], 0, 0⟩

/-- `skippedFiles` after the aggregate git/llxprt records of lines
418-431 are appended. -/
def rmfSkipsA (env : RmfEnv) : List SkipRecord :=
  let st := rmfPhaseA env
  st.skips ++
    (if st.gitIgnored > 0 then [⟨toString st.gitIgnored ++ " file(s)", "git ignored"⟩] else []) ++
    (if st.llxIgnored > 0 then [⟨toString st.llxIgnored ++ " file(s)", "llxprt ignored"⟩] else [])

/-- `sortedFiles = Array.from(filesToConsider).sort()`. -/
def rmfSorted (env : RmfEnv) : List String := sortStr (rmfPhaseA env).files

/-- The warn-mode early-return message of line 463. -/
def countWarnMessage (found limit : Nat) : String :=
  "Found " ++ toString found ++ " files matching your pattern, but limiting to " ++
    toString limit ++ " files. Please use more specific patterns to narrow your search."

/-- Aggregate record pushed by the sample branch of the count check. -/
def sampleSkipRec (omitted limit : Nat) : SkipRecord :=
  ⟨toString omitted ++ " file(s)", "sampling to stay within " ++ toString limit ++ " file limit"⟩

/-- Aggregate record pushed by the truncate branch of the count check. -/
def truncCountSkipRec (omitted limit : Nat) : SkipRecord :=
  ⟨toString omitted ++ " file(s)", "truncated to stay within " ++ toString limit ++ " file limit"⟩

/-- The sampling loop of lines 470-476:
`for (let i = 0; i < sorted.length; i += step) if (acc.length < maxF) push(sorted[i])`.
Structural fuel stands in for the loop counter; the callers pass
`sorted.length`, which bounds the number of iterations whenever
`step ≥ 1` (and when `step = 0` no element ever passes the
`acc.length < maxF` guard, because then `maxF = 0`, matching the
degenerate JS behaviour with an infinite step). -/
def sampleGo (sorted : List String) (step maxF : Nat) : Nat → Nat → List String → List String
  | 0, _, acc => acc
  | fuel + 1, i, acc =>
    if i < sorted.length then
      sampleGo sorted step maxF fuel (i + step)
        (if acc.length < maxF then acc ++ [sorted.getD i ""] else acc)
    else acc

/-- `step = Math.ceil(sortedFiles.length / maxFileCount)`. -/
def rmfStep (env : RmfEnv) : Nat := natCeilDiv (rmfSorted env).length env.maxFileCount

/-- `sampledFiles` as computed by the sample branch. -/
def rmfSampled (env : RmfEnv) : List String :=
  sampleGo (rmfSorted env) (rmfStep env) env.maxFileCount (rmfSorted env).length 0 []

/-- The file list the per-file loop will iterate over, after the count
limit of lines 460-493 has been applied (empty on the warn early
return). -/
def rmfFilesToRead (env : RmfEnv) : List String :=
  let sorted := rmfSorted env
  if sorted.length > env.maxFileCount then
    match env.truncateMode with
    | .warn => []
    | .sample => rmfSampled env
    | .truncate => sorted.take env.maxFileCount
  else sorted

/-- `contentToAdd` for a text file: separator, blank line, optional
truncation warning, the content, trailing blank line. -/
def contentToAdd (fp content : String) (isTrunc : Bool) : String :=
  sepFor fp ++ "\n\n" ++ (if isTrunc then truncNotice else "") ++ content ++ "\n\n"

/-- State threaded through the per-file loop of lines 497-636. -/
structure LoopState where
  totalTokens : Nat
  parts : List LlmPart
  processed : List String
  skips : List SkipRecord
deriving DecidableEq

/-- The per-file loop.  `totalLen` is `sortedFiles.length` (after the
count limit), used by the warn-mode token message.  Returning without a
recursive call embeds `break`; a recursive call embeds `continue` or the
fall-through to the next iteration. -/
def procFiles (env : RmfEnv) (patterns : List String) (totalLen : Nat) :
    List String → LoopState → LoopState
  | [], st => st
  | fp :: rest, st =>
    let rel := env.relPath fp
    match env.statSize fp with
    | .error e =>
        procFiles env patterns totalLen rest
          { st with skips := st.skips ++ [⟨rel, "stat error: " ++ e⟩] }
    | .ok size =>
      if size > env.fileSizeLimit then
        procFiles env patterns totalLen rest
          { st with skips := st.skips ++ [⟨rel, sizeSkipReason size env.fileSizeLimit⟩] }
      else if (env.fileType fp = .image ∨ env.fileType fp = .pdf) ∧
          requestedExplicitly patterns fp = false then
        procFiles env patterns totalLen rest
          { st with skips := st.skips ++ [⟨rel, assetSkipReason⟩] }
      else
        match env.readFile fp with
        | .failure e =>
            procFiles env patterns totalLen rest
              { st with skips := st.skips ++ [⟨rel, "Read error: " ++ e⟩] }
        | .textContent content isTrunc =>
          let add := contentToAdd fp content isTrunc
          let ct := estimateTokens add
          if st.totalTokens + ct > env.maxTokens then
            match env.truncateMode with
            | .warn =>
                { st with skips := st.skips ++
                    [⟨toString (totalLen - st.processed.length) ++ " remaining file(s)",
                      "would exceed token limit of " ++ toString env.maxTokens⟩] }
            | .truncate =>
                let remaining := env.maxTokens - st.totalTokens
                if remaining > 100 then
                  { st with
                      parts := st.parts ++ [.str (strTake add (remaining * 4) ++ tokenTruncMarker)],
                      processed := st.processed ++ [rel],
                      skips := st.skips ++ [⟨rel, "content truncated to fit token limit"⟩] }
                else st
            | .sample =>
                procFiles env patterns totalLen rest
                  { st with skips := st.skips ++ [⟨rel, "skipped to stay within token limit"⟩] }
          else
            procFiles env patterns totalLen rest
              { st with totalTokens := st.totalTokens + ct,
                        parts := st.parts ++ [.str add],
                        processed := st.processed ++ [rel] }
        | .binaryContent b =>
          if st.totalTokens + 85 > env.maxTokens then
            procFiles env patterns totalLen rest
              { st with skips := st.skips ++ [⟨rel, "would exceed token limit (non-text content)"⟩] }
          else
            procFiles env patterns totalLen rest
              { st with totalTokens := st.totalTokens + 85,
                        parts := st.parts ++ [.blob b],
                        processed := st.processed ++ [rel] }

/-- Tail of `execute`: the per-file loop followed by the final
`llmContent` assembly of lines 683-691. -/
def finishRmf (env : RmfEnv) (params : RmfParams) (files : List String)
    (skips0 : List SkipRecord) : ExecResult :=
  let st := procFiles env params.paths files.length files ⟨0, [], [], skips0⟩
  let parts := if st.parts = [] then [LlmPart.str noFilesMsg] else st.parts
  ⟨.parts parts, st.skips, st.processed⟩

/-- `ReadManyFilesTool.execute` on valid parameters: the empty-pattern
early return, entry filtering, sorting, the count-limit policy, and the
per-file loop.  (The glob call, the validation of already-schema-valid
parameters, and telemetry are external; the `returnDisplay` text is not
modelled because no claim mentions it.) -/
def rmfExecute (env : RmfEnv) (params : RmfParams) : ExecResult :=
  if params.paths ++ params.includePats = [] then
    ⟨.str "No search paths or include patterns provided.", [], []⟩
  else
    let sorted := rmfSorted env
    if sorted.length > env.maxFileCount then
      match env.truncateMode with
      | .warn => ⟨.str (countWarnMessage sorted.length env.maxFileCount), rmfSkipsA env, []⟩
      | .sample =>
          finishRmf env params (rmfSampled env)
            (rmfSkipsA env ++ [sampleSkipRec (sorted.length - (rmfSampled env).length) env.maxFileCount])
      | .truncate =>
          finishRmf env params (sorted.take env.maxFileCount)
            (rmfSkipsA env ++ [truncCountSkipRec (sorted.length - env.maxFileCount) env.maxFileCount])
    else finishRmf env params sorted (rmfSkipsA env)


def probeEnv : RmfEnv where
  globEntries := ["/w/a.txt", "/out/x.txt"]
  respectGitIgnore := false
  respectLlxprtIgnore := false
  gitFiltered := []
  llxprtFiltered := []
  isWithinWorkspace := fun p => p != "/out/x.txt"
  relPath := fun p => p
  statSize := fun _ => .ok 10
  fileType := fun _ => .other
  readFile := fun _ => .textContent "hello" false
  maxFileCount := 50
  maxTokens := 50000
  truncateMode := .warn
  fileSizeLimit := 524288


/-! ## Part 2: data model of `memoryDiscovery.ts`

Directories and file paths are lists of path segments from the filesystem
root; the root itself is `[]`, `path.dirname` is `List.dropLast`, and
`path.join dir name` is `dir ++ [name]`.  Inputs are taken to be already
canonical (the source calls `path.resolve` on them). -/

/-- A directory-or-file path as a segment list. -/
abbrev SegPath := List String

/-- External collaborators of the memory-discovery functions, read-only:
`fs.lstat(dir/.git).isDirectory()`, `fs.access(p, R_OK)` success,
`bfsFileSearch` (a separate module, abstract here; the caller sorts its
output), `fs.readFile` (with `none` for a read failure), `processImports`
(a separate module, abstract here, keyed by the importing directory), and
the display-path rendering `path.relative(cwd, p)` used by
`concatenateInstructions`. -/
structure MemFS where
  isGitDir : SegPath → Bool
  accessOk : SegPath → Bool
  bfs : SegPath → String → List SegPath
  readFile : SegPath → Option String
  procImports : SegPath → String → String
  disp : SegPath → String

/-- Rendering of a segment path as an absolute path string (used for the
lexicographic sort of the downward-scan results). -/
def pathStr (p : SegPath) : String := "/" ++ String.intercalate "/" p

/-- `downwardPaths.sort()`. -/
def sortPaths (l : List SegPath) : List SegPath :=
  insSort (fun a b => strLeB (pathStr a) (pathStr b)) l

/-- `findProjectRoot`, walking with explicit fuel: check for a `.git`
directory at the current level, else move to the parent, stopping with
`null` at the filesystem root (where the parent equals the directory).
The fuel is the depth of the starting directory, which exactly covers
the walk. -/
def findPRAux (fs : MemFS) : Nat → SegPath → Option SegPath
  | 0, cur => if fs.isGitDir cur then some cur else none
  | fuel + 1, cur =>
    if fs.isGitDir cur then some cur
    else if cur = [] then none
    else findPRAux fs fuel cur.dropLast

/-- `findProjectRoot(startDir)`. -/
def findProjectRoot (fs : MemFS) (startDir : SegPath) : Option SegPath :=
  findPRAux fs startDir.length startDir

/-- The upward scan of lines 162-203, with explicit fuel (the depth of the
starting directory, which covers the walk): while the current directory is
not the filesystem root, stop at the global config directory, otherwise
record a readable `fname` that is not the global file, and stop after
processing `ultimateStop`.  `unshift` accumulation makes the result
root-to-leaf: ancestors first, the current level appended last. -/
def upwardScanAux (fs : MemFS) (cfgDirPath : SegPath) (fname : String)
    (globalPath ultimateStop : SegPath) : Nat → SegPath → List SegPath
  | 0, _ => []
  | fuel + 1, cur =>
    if cur = [] then []
    else if cur = cfgDirPath then []
    else
      let p := cur ++ [fname]
      let found := if fs.accessOk p = true ∧ p ≠ globalPath then [p] else []
      if cur = ultimateStop then found
      else upwardScanAux fs cfgDirPath fname globalPath ultimateStop fuel cur.dropLast ++ found

/-- The upward scan from a starting directory. -/
def upwardScan (fs : MemFS) (cfgDirPath : SegPath) (fname : String)
    (globalPath ultimateStop cur : SegPath) : List SegPath :=
  upwardScanAux fs cfgDirPath fname globalPath ultimateStop cur.length cur

/-- `ultimateStopDir`: one level above the project root when a marker was
found, otherwise one level above the user home. -/
def ultimateStopOf (fs : MemFS) (dir home : SegPath) : SegPath :=
  match findProjectRoot fs dir with
  | some r => r.dropLast
  | none => home.dropLast

/-- `getContextFilePathsInternalForEachDir`: per context filename, add the
readable global file, then the upward-scan results, then the sorted
downward-scan results, into an insertion-ordered set; extension context
paths are appended last.  (The `if (dir)` truthiness guard of line 151 is
always taken here: a working directory is supplied.) -/
def forEachDir (fs : MemFS) (dir home : SegPath) (cfgDir : String)
    (filenames : List String) (extPaths : List SegPath) : List SegPath :=
  let base := filenames.foldl (fun acc fname =>
    let g := home ++ [cfgDir, fname]
    let acc1 := if fs.accessOk g then addUnique acc g else acc
    let up := upwardScan fs (home ++ [cfgDir]) fname g (ultimateStopOf fs dir home) dir
    let acc2 := up.foldl addUnique acc1
    let dn := sortPaths (fs.bfs dir fname)
    dn.foldl addUnique acc2) []
  extPaths.foldl addUnique base

/-- `getContextFilePathsInternal`: the per-directory discovery over the
deduplicated `includeDirectories ++ [cwd]`, deduplicated again. -/
def getContextFilePathsInternal (fs : MemFS) (cwd : SegPath)
    (includeDirs : List SegPath) (home : SegPath) (cfgDir : String)
    (filenames : List String) (extPaths : List SegPath) : List SegPath :=
  let dirs := dedupFirst (includeDirs ++ [cwd])
  dedupFirst (dirs.flatMap (fun d => forEachDir fs d home cfgDir filenames extPaths))

/-- `GeminiFileContent`: a discovered path with its (possibly failed)
import-expanded content. -/
structure GeminiFileContent where
  filePath : SegPath
  content : Option String
deriving DecidableEq

/-- `readContextFiles`: read every path, expand imports relative to the
containing directory, and record `null` content on a read failure. -/
def readContextFiles (fs : MemFS) (paths : List SegPath) : List GeminiFileContent :=
  paths.map (fun fp =>
    match fs.readFile fp with
    | some content => ⟨fp, some (fs.procImports fp.dropLast content)⟩
    | none => ⟨fp, none⟩)

/-- The delimiter block around one file with non-empty trimmed content. -/
def contextBlock (fs : MemFS) (fp : SegPath) (trimmed : String) : String :=
  "--- Context from: " ++ fs.disp fp ++ " ---\n" ++ trimmed ++
    "\n--- End of Context from: " ++ fs.disp fp ++ " ---"

/-- `concatenateInstructions`: drop null content, trim, drop empty trims,
wrap the rest in delimiter blocks, join with blank lines. -/
def concatenateInstructions (fs : MemFS) (items : List GeminiFileContent) : String :=
  String.intercalate "\n\n" (items.filterMap (fun item =>
    match item.content with
    | none => none
    | some c =>
      let t := strTrim c
      if t = "" then none else some (contextBlock fs item.filePath t)))

/-- Result of `loadServerHierarchicalMemory`. -/
structure MemResult where
  memoryContent : String
  fileCount : Nat
deriving DecidableEq

/-- `loadServerHierarchicalMemory`: discovery, the empty early return,
reading with import expansion, concatenation, and
`fileCount := contentsWithPaths.length`. -/
def loadServerHierarchicalMemory (fs : MemFS) (cwd : SegPath)
    (includeDirs : List SegPath) (home : SegPath) (cfgDir : String)
    (filenames : List String) (extPaths : List SegPath) : MemResult :=
  let filePaths := getContextFilePathsInternal fs cwd includeDirs home cfgDir filenames extPaths
  if filePaths = [] then ⟨"", 0⟩
  else
    let contents := readContextFiles fs filePaths
    ⟨concatenateInstructions fs contents, contents.length⟩

/-! ## Part 3: reference definitions (spec-side), used to state claims -/

/-- Reference description of the sampling indices, written from the claim:
starting at index `i` (the callers use `0`), take every `step`-th index
while it is below `n`.  The fuel argument matches the one of `sampleGo`. -/
def strideList (n step : Nat) : Nat → Nat → List Nat
  | 0, _ => []
  | fuel + 1, i => if i < n then i :: strideList n step fuel (i + step) else []

/-- Bool-valued keep condition of the entry-filtering loop: inside the
workspace and surviving both ignore filters. -/
def gitSkipB (env : RmfEnv) (p : String) : Bool :=
  env.respectGitIgnore && decide (p ∉ env.gitFiltered)

/-- Bool-valued llxprt-ignore rejection condition. -/
def llxSkipB (env : RmfEnv) (p : String) : Bool :=
  env.respectLlxprtIgnore && decide (p ∉ env.llxprtFiltered)

/-- A glob entry reaches `filesToConsider` iff it is in the workspace and
passes both ignore filters. -/
def keepB (env : RmfEnv) (p : String) : Bool :=
  env.isWithinWorkspace p && !gitSkipB env p && !llxSkipB env p

/-- Reference walk of the upward scan, written from the amended claim: the
sequence of directories the scan visits, root-to-leaf — the chain of
parents of the start directory, cut (exclusively) at the filesystem root
or the global config directory and (inclusively) at the ultimate stop
directory. -/
def upwardVisitedAux (cfgDirPath stop : SegPath) : Nat → SegPath → List SegPath
  | 0, _ => []
  | fuel + 1, cur =>
    if cur = [] then []
    else if cur = cfgDirPath then []
    else if cur = stop then [cur]
    else upwardVisitedAux cfgDirPath stop fuel cur.dropLast ++ [cur]

/-- The visited directories of one upward scan. -/
def upwardVisited (cfgDirPath stop cur : SegPath) : List SegPath :=
  upwardVisitedAux cfgDirPath stop cur.length cur

/-! ## Part 4: concrete fixtures for witnesses and counterexamples -/

/-- One in-workspace glob entry only (baseline for the insertion fixture). -/
def envC2 : RmfEnv where
  globEntries := ["/w/a.txt"]
  respectGitIgnore := false
  respectLlxprtIgnore := false
  gitFiltered := []
  llxprtFiltered := []
  isWithinWorkspace := fun p => p != "/out/x.txt"
  relPath := fun p => p
  statSize := fun _ => .ok 10
  fileType := fun _ => .other
  readFile := fun _ => .textContent "hello" false
  maxFileCount := 50
  maxTokens := 50000
  truncateMode := .warn
  fileSizeLimit := 524288

/-- Two candidates, a one-file limit, warn policy. -/
def envC3 : RmfEnv where
  globEntries := ["/w/a.txt", "/w/b.txt"]
  respectGitIgnore := false
  respectLlxprtIgnore := false
  gitFiltered := []
  llxprtFiltered := []
  isWithinWorkspace := fun _ => true
  relPath := fun p => p
  statSize := fun _ => .ok 10
  fileType := fun _ => .other
  readFile := fun _ => .textContent "hi" false
  maxFileCount := 1
  maxTokens := 50000
  truncateMode := .warn
  fileSizeLimit := 524288

/-- Twenty ordered candidates, a five-file limit, sample policy. -/
def envC4 : RmfEnv where
  globEntries :=
    ["/w/f00", "/w/f01", "/w/f02", "/w/f03", "/w/f04", "/w/f05", "/w/f06",
     "/w/f07", "/w/f08", "/w/f09", "/w/f10", "/w/f11", "/w/f12", "/w/f13",
     "/w/f14", "/w/f15", "/w/f16", "/w/f17", "/w/f18", "/w/f19"]
  respectGitIgnore := false
  respectLlxprtIgnore := false
  gitFiltered := []
  llxprtFiltered := []
  isWithinWorkspace := fun _ => true
  relPath := fun p => p
  statSize := fun _ => .ok 10
  fileType := fun _ => .other
  readFile := fun _ => .textContent "x" false
  maxFileCount := 5
  maxTokens := 50000
  truncateMode := .sample
  fileSizeLimit := 524288

/-- A 900-character text (token cost of its `contentToAdd` is 230). -/
def contentC5a : String := ⟨List.replicate 900 'a'⟩

/-- One text file whose cost exceeds a 200-token budget with more than
100 tokens remaining, under the truncate policy. -/
def envC5a : RmfEnv where
  globEntries := ["/w/a.txt"]
  respectGitIgnore := false
  respectLlxprtIgnore := false
  gitFiltered := []
  llxprtFiltered := []
  isWithinWorkspace := fun _ => true
  relPath := fun p => p
  statSize := fun _ => .ok 10
  fileType := fun _ => .other
  readFile := fun _ => .textContent contentC5a false
  maxFileCount := 50
  maxTokens := 200
  truncateMode := .truncate
  fileSizeLimit := 524288

/-- A 200-character text (token cost of its `contentToAdd` is 55). -/
def contentC5b : String := ⟨List.replicate 200 'a'⟩

/-- One text file whose cost exceeds a 50-token budget with only 50
tokens remaining (at most 100), under the truncate policy. -/
def envC5b : RmfEnv where
  globEntries := ["/w/a.txt"]
  respectGitIgnore := false
  respectLlxprtIgnore := false
  gitFiltered := []
  llxprtFiltered := []
  isWithinWorkspace := fun _ => true
  relPath := fun p => p
  statSize := fun _ => .ok 10
  fileType := fun _ => .other
  readFile := fun _ => .textContent contentC5b false
  maxFileCount := 50
  maxTokens := 50
  truncateMode := .truncate
  fileSizeLimit := 524288

/-- One image file, to exercise the explicit-request gate. -/
def envC10 : RmfEnv where
  globEntries := ["/w/img.png"]
  respectGitIgnore := false
  respectLlxprtIgnore := false
  gitFiltered := []
  llxprtFiltered := []
  isWithinWorkspace := fun _ => true
  relPath := fun p => p
  statSize := fun _ => .ok 10
  fileType := fun _ => .image
  readFile := fun _ => .binaryContent 7
  maxFileCount := 50
  maxTokens := 50000
  truncateMode := .warn
  fileSizeLimit := 524288

/-- Context-discovery fixture: a `.git` marker at `/h/r`, a readable
global file `/h/cfg/CTX`, a readable upward match `/h/r/CTX`, one
downward match and one extension path. -/
def fsC6 : MemFS where
  isGitDir := fun d => decide (d = ["h", "r"])
  accessOk := fun p => decide (p = ["h", "cfg", "CTX"] ∨ p = ["h", "r", "CTX"])
  bfs := fun _ _ => [["h", "r", "w", "d", "CTX"]]
  readFile := fun _ => some "m"
  procImports := fun _ c => c
  disp := fun _ => ""

/-- Upward-scan fixture: no `.git` marker anywhere, the user home three
levels deep, and a readable context file at the top-level directory
`/h` — above the parent of the home directory. -/
def fsC7 : MemFS where
  isGitDir := fun _ => false
  accessOk := fun p => decide (p = ["h", "CTX"])
  bfs := fun _ _ => []
  readFile := fun _ => some "m"
  procImports := fun _ c => c
  disp := fun _ => ""

/-- Memory-load fixture: the global context file is discoverable
(`fs.access` succeeds) but reading it fails. -/
def fsC8 : MemFS where
  isGitDir := fun _ => false
  accessOk := fun p => decide (p = ["h", "cfg", "CTX"])
  bfs := fun _ _ => []
  readFile := fun _ => none
  procImports := fun _ c => c
  disp := fun p => String.intercalate "/" p

/-! ## Infrastructure lemmas -/

lemma isPreB_iff : ∀ n h : List Char, isPreB n h = true ↔ ∃ v, n ++ v = h
  | [], h => by simp [isPreB]
  | _ :: _, [] => by simp [isPreB]
  | a :: as, b :: bs => by
    simp only [isPreB, Bool.and_eq_true, decide_eq_true_eq, List.cons_append, List.cons.injEq]
    constructor
    · rintro ⟨rfl, h⟩
      obtain ⟨v, rfl⟩ := (isPreB_iff as bs).1 h
      exact ⟨v, rfl, rfl⟩
    · rintro ⟨v, rfl, hv⟩
      exact ⟨rfl, (isPreB_iff as bs).2 ⟨v, hv⟩⟩

lemma subOf_iff : ∀ n h : List Char, subOf n h = true ↔ ∃ u v, h = u ++ n ++ v
  | n, [] => by
    simp only [subOf, isPreB_iff]
    constructor
    · rintro ⟨v, hv⟩
      rcases List.append_eq_nil.mp hv with ⟨rfl, rfl⟩
      exact ⟨[], [], rfl⟩
    · rintro ⟨u, v, huv⟩
      rcases List.append_eq_nil.mp huv.symm with ⟨h1, rfl⟩
      rcases List.append_eq_nil.mp h1 with ⟨rfl, rfl⟩
      exact ⟨[], rfl⟩
  | n, c :: t => by
    simp only [subOf, Bool.or_eq_true, isPreB_iff, subOf_iff n t]
    constructor
    · rintro (⟨v, hv⟩ | ⟨u, v, rfl⟩)
      · exact ⟨[], v, by simp [hv]⟩
      · exact ⟨c :: u, v, rfl⟩
    · rintro ⟨u, v, huv⟩
      cases u with
      | nil => exact Or.inl ⟨v, by simpa using huv.symm⟩
      | cons x u' =>
        rcases List.cons.injEq .. ▸ huv with ⟨rfl, ht⟩
        exact Or.inr ⟨u', v, ht⟩

lemma subOf_trans {a b c : List Char} (h1 : subOf b c = true) (h2 : subOf a b = true) :
    subOf a c = true := by
  obtain ⟨u1, v1, rfl⟩ := (subOf_iff b c).1 h1
  obtain ⟨u2, v2, rfl⟩ := (subOf_iff a b).1 h2
  exact (subOf_iff a _).2 ⟨u1 ++ u2, v2 ++ v1, by simp⟩

lemma strIncludes_trans {a b c : String} (h1 : strIncludes a b = true)
    (h2 : strIncludes b c = true) : strIncludes a c = true :=
  @subOf_trans c.data b.data a.data h1 h2

lemma subOf_of_parts (n u v : List Char) : subOf n (u ++ n ++ v) = true :=
  (subOf_iff n _).2 ⟨u, v, rfl⟩

lemma mem_dedupSeen [DecidableEq α] (x : α) :
    ∀ (l seen : List α), x ∈ dedupSeen seen l ↔ x ∈ l ∧ x ∉ seen
  | [], seen => by simp [dedupSeen]
  | y :: ys, seen => by
    simp only [dedupSeen]
    split
    · rename_i hy
      rw [mem_dedupSeen x ys seen]
      simp only [List.mem_cons]
      constructor
      · rintro ⟨h1, h2⟩; exact ⟨Or.inr h1, h2⟩
      · rintro ⟨h1 | h1, h2⟩
        · exact absurd (h1 ▸ hy) h2
        · exact ⟨h1, h2⟩
    · rename_i hy
      simp only [List.mem_cons, mem_dedupSeen x ys (seen ++ [y]), List.mem_append,
        List.mem_singleton]
      constructor
      · rintro (rfl | ⟨h1, h2⟩)
        · exact ⟨Or.inl rfl, hy⟩
        · exact ⟨Or.inr h1, fun hs => h2 (Or.inl hs)⟩
      · rintro ⟨rfl | h1, h2⟩
        · exact Or.inl rfl
        · by_cases hxy : x = y
          · exact Or.inl hxy
          · exact Or.inr ⟨h1, by simp [hxy, h2]⟩

lemma dedupSeen_nodup [DecidableEq α] : ∀ (l seen : List α), (dedupSeen seen l).Nodup
  | [], _ => List.nodup_nil
  | y :: ys, seen => by
    simp only [dedupSeen]
    split
    · exact dedupSeen_nodup ys seen
    · refine List.nodup_cons.2 ⟨fun hmem => ?_, dedupSeen_nodup ys (seen ++ [y])⟩
      have := (mem_dedupSeen y ys (seen ++ [y])).1 hmem
      simp at this

lemma foldl_addUnique [DecidableEq α] :
    ∀ (l acc : List α), l.foldl addUnique acc = acc ++ dedupSeen acc l
  | [], acc => by simp [dedupSeen]
  | x :: xs, acc => by
    simp only [List.foldl_cons, dedupSeen, addUnique]
    split
    · exact foldl_addUnique xs acc
    · rw [foldl_addUnique xs (acc ++ [x])]
      simp

lemma dedupSeen_append [DecidableEq α] :
    ∀ (a b seen : List α),
      dedupSeen seen (a ++ b) = dedupSeen seen a ++ dedupSeen (seen ++ dedupSeen seen a) b
  | [], b, seen => by simp [dedupSeen]
  | x :: xs, b, seen => by
    simp only [List.cons_append, dedupSeen]
    split
    · exact dedupSeen_append xs b seen
    · rw [show xs.append b = xs ++ b from rfl, dedupSeen_append xs b (seen ++ [x])]
      simp

lemma dedupSeen_seen_irrel [DecidableEq α] :
    ∀ (l s1 s2 : List α), (∀ x ∈ l, x ∈ s1 ↔ x ∈ s2) → dedupSeen s1 l = dedupSeen s2 l
  | [], _, _, _ => rfl
  | y :: ys, s1, s2, h => by
    have hy := h y (List.mem_cons_self y ys)
    simp only [dedupSeen]
    by_cases h1 : y ∈ s1
    · rw [if_pos h1, if_pos (hy.1 h1)]
      exact dedupSeen_seen_irrel ys s1 s2 (fun x hx => h x (List.mem_cons_of_mem y hx))
    · rw [if_neg h1, if_neg (fun h2 => h1 (hy.2 h2))]
      congr 1
      refine dedupSeen_seen_irrel ys (s1 ++ [y]) (s2 ++ [y]) (fun x hx => ?_)
      simp only [List.mem_append, List.mem_singleton]
      have := h x (List.mem_cons_of_mem y hx)
      tauto

lemma mem_insertLe (le : α → α → Bool) (x y : α) :
    ∀ l : List α, x ∈ insertLe le y l ↔ x = y ∨ x ∈ l
  | [] => by simp [insertLe]
  | z :: zs => by
    simp only [insertLe]
    split
    · simp
    · rw [List.mem_cons, mem_insertLe le x y zs, List.mem_cons]
      tauto

lemma mem_insSort (le : α → α → Bool) (x : α) : ∀ l : List α, x ∈ insSort le l ↔ x ∈ l
  | [] => Iff.rfl
  | z :: zs => by
    rw [insSort, mem_insertLe le x z (insSort le zs), mem_insSort le x zs, List.mem_cons]

/-! ## Characterisation of the entry-filtering loop -/

lemma phaseA_foldl (env : RmfEnv) :
    ∀ (l : List String) (st : PhaseAState),
      l.foldl (phaseAStep env) st =
        ⟨st.files ++ l.filter (keepB env),
         st.skips ++ (l.filter (fun p => !env.isWithinWorkspace p)).map
           (fun p => ⟨p, secReason p⟩),
         st.gitIgnored +
           (l.filter (fun p => env.isWithinWorkspace p && gitSkipB env p)).length,
         st.llxIgnored +
           (l.filter (fun p =>
             env.isWithinWorkspace p && !gitSkipB env p && llxSkipB env p)).length⟩
  | [], st => by simp
  | p :: l, st => by
    rw [List.foldl_cons, phaseA_foldl env l (phaseAStep env st p)]
    by_cases h1 : env.isWithinWorkspace p = false
    · have hk : keepB env p = false := by simp [keepB, h1]
      simp [phaseAStep, if_pos h1, List.filter_cons, hk, h1]
    · have hw : env.isWithinWorkspace p = true := by
        cases h : env.isWithinWorkspace p
        · exact absurd h h1
        · rfl
      by_cases h2 : env.respectGitIgnore = true ∧ p ∉ env.gitFiltered
      · have hg : gitSkipB env p = true := by simp [gitSkipB, h2.1, h2.2]
        have hk : keepB env p = false := by simp [keepB, hg]
        simp [phaseAStep, if_neg h1, if_pos h2, List.filter_cons, hk, hw, hg,
          Nat.add_assoc, Nat.add_comm 1]
      · have hg : gitSkipB env p = false := by
          simp only [gitSkipB, Bool.and_eq_false_iff]
          by_cases hr : env.respectGitIgnore = true
          · exact Or.inr (by simpa [hr] using h2)
          · exact Or.inl (by simpa using hr)
        by_cases h3 : env.respectLlxprtIgnore = true ∧ p ∉ env.llxprtFiltered
        · have hl : llxSkipB env p = true := by simp [llxSkipB, h3.1, h3.2]
          have hk : keepB env p = false := by simp [keepB, hl]
          simp [phaseAStep, if_neg h1, if_neg h2, if_pos h3, List.filter_cons, hk, hw,
            hg, hl, Nat.add_assoc, Nat.add_comm 1]
        · have hl : llxSkipB env p = false := by
            simp only [llxSkipB, Bool.and_eq_false_iff]
            by_cases hr : env.respectLlxprtIgnore = true
            · exact Or.inr (by simpa [hr] using h3)
            · exact Or.inl (by simpa using hr)
          have hk : keepB env p = true := by simp [keepB, hw, hg, hl]
          simp [phaseAStep, if_neg h1, if_neg h2, if_neg h3, List.filter_cons, hk, hw,
            hg, hl]

/-! ## Properties of the per-file loop -/

lemma procFiles_skips (env : RmfEnv) (pats : List String) (n : Nat) :
    ∀ (files : List String) (t : Nat) (pa : List LlmPart) (pr : List String)
      (s : List SkipRecord),
      procFiles env pats n files ⟨t, pa, pr, s⟩ =
        { procFiles env pats n files ⟨t, pa, pr, []⟩ with
          skips := s ++ (procFiles env pats n files ⟨t, pa, pr, []⟩).skips } := by
  intro files
  induction files with
  | nil => intro t pa pr s; simp [procFiles]
  | cons fp rest ih =>
    intro t pa pr s
    have key : ∀ (t' : Nat) (pa' : List LlmPart) (pr' : List String) (X : List SkipRecord),
        procFiles env pats n rest ⟨t', pa', pr', s ++ X⟩ =
          { procFiles env pats n rest ⟨t', pa', pr', X⟩ with
            skips := s ++ (procFiles env pats n rest ⟨t', pa', pr', X⟩).skips } := by
      intro t' pa' pr' X
      rw [ih t' pa' pr' (s ++ X), ih t' pa' pr' X]
      simp [List.append_assoc]
    simp only [procFiles]
    cases h : env.statSize fp with
    | error e =>
      simp only [List.nil_append]
      exact key _ _ _ _
    | ok size =>
      by_cases h2 : size > env.fileSizeLimit
      · simp only [if_pos h2, List.nil_append]
        exact key _ _ _ _
      · simp only [if_neg h2]
        by_cases h3 : (env.fileType fp = .image ∨ env.fileType fp = .pdf) ∧
            requestedExplicitly pats fp = false
        · simp only [if_pos h3, List.nil_append]
          exact key _ _ _ _
        · simp only [if_neg h3]
          cases hr : env.readFile fp with
          | failure e =>
            simp only [List.nil_append]
            exact key _ _ _ _
          | textContent content isTrunc =>
            by_cases h4 : t + estimateTokens (contentToAdd fp content isTrunc) > env.maxTokens
            · simp only [if_pos h4]
              cases hm : env.truncateMode with
              | warn => simp
              | truncate =>
                by_cases h5 : env.maxTokens - t > 100
                · simp only [if_pos h5]
                  simp
                · simp only [if_neg h5]
                  simp
              | sample =>
                simp only [List.nil_append]
                exact key _ _ _ _
            · simp only [if_neg h4]
              exact ih _ _ _ s
          | binaryContent b =>
            by_cases h4 : t + 85 > env.maxTokens
            · simp only [if_pos h4, List.nil_append]
              exact key _ _ _ _
            · simp only [if_neg h4]
              exact ih _ _ _ s

lemma procFiles_processed (env : RmfEnv) (pats : List String) (n : Nat) :
    ∀ (files : List String) (st : LoopState) (r : String),
      r ∈ (procFiles env pats n files st).processed →
      r ∈ st.processed ∨ ∃ p ∈ files, r = env.relPath p := by
  intro files
  induction files with
  | nil => intro st r hr; exact Or.inl hr
  | cons fp rest ih =>
    intro st r
    have cont : ∀ st' : LoopState,
        r ∈ (procFiles env pats n rest st').processed →
        (∀ x ∈ st'.processed, x ∈ st.processed ∨ x = env.relPath fp) →
        r ∈ st.processed ∨ ∃ p ∈ fp :: rest, r = env.relPath p := by
      intro st' h hX
      rcases ih st' r h with h' | ⟨p, hp, he⟩
      · rcases hX r h' with h'' | h''
        · exact Or.inl h''
        · exact Or.inr ⟨fp, List.mem_cons_self fp rest, h''⟩
      · exact Or.inr ⟨p, List.mem_cons_of_mem fp hp, he⟩
    simp only [procFiles]
    cases h : env.statSize fp with
    | error e =>
      intro hr
      exact cont _ hr (by intro x hx; exact Or.inl hx)
    | ok size =>
      by_cases h2 : size > env.fileSizeLimit
      · simp only [if_pos h2]
        intro hr
        exact cont _ hr (by intro x hx; exact Or.inl hx)
      · simp only [if_neg h2]
        by_cases h3 : (env.fileType fp = .image ∨ env.fileType fp = .pdf) ∧
            requestedExplicitly pats fp = false
        · simp only [if_pos h3]
          intro hr
          exact cont _ hr (by intro x hx; exact Or.inl hx)
        · simp only [if_neg h3]
          cases hr2 : env.readFile fp with
          | failure e =>
            intro hr
            exact cont _ hr (by intro x hx; exact Or.inl hx)
          | textContent content isTrunc =>
            by_cases h4 : st.totalTokens + estimateTokens (contentToAdd fp content isTrunc) >
                env.maxTokens
            · simp only [if_pos h4]
              cases hm : env.truncateMode with
              | warn => intro hr; exact Or.inl hr
              | truncate =>
                by_cases h5 : env.maxTokens - st.totalTokens > 100
                · simp only [if_pos h5]
                  intro hr
                  rcases List.mem_append.mp hr with h' | h'
                  · exact Or.inl h'
                  · exact Or.inr ⟨fp, List.mem_cons_self fp rest, List.mem_singleton.mp h'⟩
                · simp only [if_neg h5]
                  intro hr
                  exact Or.inl hr
              | sample =>
                intro hr
                exact cont _ hr (by intro x hx; exact Or.inl hx)
            · simp only [if_neg h4]
              intro hr
              refine cont _ hr (fun x hx => ?_)
              rcases List.mem_append.mp hx with h' | h'
              · exact Or.inl h'
              · exact Or.inr (List.mem_singleton.mp h')
          | binaryContent b =>
            by_cases h4 : st.totalTokens + 85 > env.maxTokens
            · simp only [if_pos h4]
              intro hr
              exact cont _ hr (by intro x hx; exact Or.inl hx)
            · simp only [if_neg h4]
              intro hr
              refine cont _ hr (fun x hx => ?_)
              rcases List.mem_append.mp hx with h' | h'
              · exact Or.inl h'
              · exact Or.inr (List.mem_singleton.mp h')

/-! ## The sampling loop computes a stride selection -/

lemma sampleGo_eq (sorted : List String) (step maxF : Nat) :
    ∀ (fuel i : Nat) (acc : List String),
      sampleGo sorted step maxF fuel i acc =
        acc ++ ((strideList sorted.length step fuel i).take (maxF - acc.length)).map
          (fun j => sorted.getD j "") := by
  intro fuel
  induction fuel with
  | zero => intro i acc; simp [sampleGo, strideList]
  | succ fuel ihf =>
    intro i acc
    simp only [sampleGo, strideList]
    by_cases hi : i < sorted.length
    · simp only [if_pos hi]
      by_cases hl : acc.length < maxF
      · simp only [if_pos hl]
        rw [ihf (i + step) (acc ++ [sorted.getD i ""])]
        have hk : maxF - acc.length = (maxF - (acc ++ [sorted.getD i ""]).length) + 1 := by
          simp only [List.length_append, List.length_singleton]
          omega
        rw [hk]
        simp [List.append_assoc]
      · simp only [if_neg hl]
        have h0 : maxF - acc.length = 0 := by omega
        rw [ihf (i + step) acc]
        have h0' : maxF - acc.length = 0 := h0
        simp [h0]
    · simp [if_neg hi]

lemma strideList_mem (n step : Nat) :
    ∀ (fuel i j : Nat), j ∈ strideList n step fuel i → j < n ∧ j % step = i % step := by
  intro fuel
  induction fuel with
  | zero => intro i j hj; simp [strideList] at hj
  | succ fuel ihf =>
    intro i j hj
    simp only [strideList] at hj
    by_cases hi : i < n
    · rw [if_pos hi] at hj
      rcases List.mem_cons.mp hj with rfl | hj'
      · exact ⟨hi, rfl⟩
      · rcases ihf (i + step) j hj' with ⟨h1, h2⟩
        exact ⟨h1, h2.trans (Nat.add_mod_right i step)⟩
    · rw [if_neg hi] at hj
      simp at hj

lemma rmfSampled_sub (env : RmfEnv) : ∀ x ∈ rmfSampled env, x ∈ rmfSorted env := by
  intro x hx
  rw [rmfSampled, sampleGo_eq] at hx
  simp only [List.nil_append, List.mem_map] at hx
  obtain ⟨j, hj, rfl⟩ := hx
  have hj' := List.take_subset _ _ hj
  have := (strideList_mem _ _ _ _ _ hj').1
  rw [List.getD_eq_getElem _ _ this]
  exact List.getElem_mem this

/-! ## Membership facts for the selected file list -/

lemma rmfPhaseA_eq (env : RmfEnv) :
    rmfPhaseA env =
      ⟨(dedupFirst env.globEntries).filter (keepB env),
       ((dedupFirst env.globEntries).filter (fun p => !env.isWithinWorkspace p)).map
         (fun p => ⟨p, secReason p⟩),
       ((dedupFirst env.globEntries).filter
         (fun p => env.isWithinWorkspace p && gitSkipB env p)).length,
       ((dedupFirst env.globEntries).filter
         (fun p => env.isWithinWorkspace p && !gitSkipB env p && llxSkipB env p)).length⟩ := by
  rw [rmfPhaseA, phaseA_foldl]
  simp

lemma rmfSorted_within (env : RmfEnv) : ∀ p ∈ rmfSorted env, env.isWithinWorkspace p = true := by
  intro p hp
  rw [rmfSorted, sortStr] at hp
  rw [mem_insSort] at hp
  rw [rmfPhaseA_eq] at hp
  simp only [List.mem_filter] at hp
  have hk := hp.2
  simp only [keepB, Bool.and_eq_true] at hk
  exact hk.1.1

lemma rmfFilesToRead_within (env : RmfEnv) :
    ∀ p ∈ rmfFilesToRead env, env.isWithinWorkspace p = true := by
  intro p hp
  rw [rmfFilesToRead] at hp
  by_cases hlen : (rmfSorted env).length > env.maxFileCount
  · rw [if_pos hlen] at hp
    cases hm : env.truncateMode with
    | warn => rw [hm] at hp; simp at hp
    | sample => rw [hm] at hp; exact rmfSorted_within env p (rmfSampled_sub env p hp)
    | truncate => rw [hm] at hp; exact rmfSorted_within env p (List.take_subset _ _ hp)
  · rw [if_neg hlen] at hp
    exact rmfSorted_within env p hp

lemma finishRmf_skips (env : RmfEnv) (params : RmfParams) (files : List String)
    (skips0 : List SkipRecord) :
    (finishRmf env params files skips0).skippedFiles =
      skips0 ++ (procFiles env params.paths files.length files ⟨0, [], [], []⟩).skips := by
  simp only [finishRmf, procFiles_skips env params.paths files.length files 0 [] [] skips0]

lemma finishRmf_processed (env : RmfEnv) (params : RmfParams) (files : List String)
    (skips0 : List SkipRecord) :
    (finishRmf env params files skips0).processedFiles =
      (procFiles env params.paths files.length files ⟨0, [], [], []⟩).processed := by
  simp only [finishRmf, procFiles_skips env params.paths files.length files 0 [] [] skips0]

lemma finishRmf_llm (env : RmfEnv) (params : RmfParams) (files : List String)
    (skips0 : List SkipRecord) :
    (finishRmf env params files skips0).llmContent =
      (finishRmf env params files []).llmContent := by
  simp only [finishRmf, procFiles_skips env params.paths files.length files 0 [] [] skips0]

lemma secRecord_mem_skipsA (env : RmfEnv) (p : String)
    (hp : p ∈ dedupFirst env.globEntries) (hout : env.isWithinWorkspace p = false) :
    SkipRecord.mk p (secReason p) ∈ rmfSkipsA env := by
  simp only [rmfSkipsA, rmfPhaseA_eq]
  refine List.mem_append.mpr (Or.inl (List.mem_append.mpr (Or.inl ?_)))
  exact List.mem_map.mpr ⟨p, List.mem_filter.mpr ⟨hp, by simp [hout]⟩, rfl⟩

lemma rmfExecute_skips (env : RmfEnv) (params : RmfParams)
    (hne : params.paths ++ params.includePats ≠ []) :
    ∃ tail, (rmfExecute env params).skippedFiles = rmfSkipsA env ++ tail := by
  simp only [rmfExecute, if_neg hne]
  by_cases hlen : (rmfSorted env).length > env.maxFileCount
  · simp only [if_pos hlen]
    cases hm : env.truncateMode with
    | warn => exact ⟨[], by simp⟩
    | sample =>
      rw [finishRmf_skips]
      exact ⟨_, by rw [List.append_assoc]⟩
    | truncate =>
      rw [finishRmf_skips]
      exact ⟨_, by rw [List.append_assoc]⟩
  · simp only [if_neg hlen]
    rw [finishRmf_skips]
    exact ⟨_, rfl⟩

lemma rmfExecute_processed (env : RmfEnv) (params : RmfParams) :
    ∀ r ∈ (rmfExecute env params).processedFiles,
      ∃ p ∈ rmfFilesToRead env, r = env.relPath p := by
  intro r hr
  simp only [rmfExecute] at hr
  by_cases hne : params.paths ++ params.includePats = []
  · rw [if_pos hne] at hr
    simp at hr
  · rw [if_neg hne] at hr
    by_cases hlen : (rmfSorted env).length > env.maxFileCount
    · rw [if_pos hlen] at hr
      cases hm : env.truncateMode with
      | warn => rw [hm] at hr; simp at hr
      | sample =>
        rw [hm] at hr
        rw [finishRmf_processed] at hr
        rcases procFiles_processed env params.paths _ _ _ r hr with h | ⟨p, hp, rfl⟩
        · simp at h
        · exact ⟨p, by rw [rmfFilesToRead, if_pos hlen, hm]; exact hp, rfl⟩
      | truncate =>
        rw [hm] at hr
        rw [finishRmf_processed] at hr
        rcases procFiles_processed env params.paths _ _ _ r hr with h | ⟨p, hp, rfl⟩
        · simp at h
        · exact ⟨p, by rw [rmfFilesToRead, if_pos hlen, hm]; exact hp, rfl⟩
    · rw [if_neg hlen] at hr
      rw [finishRmf_processed] at hr
      rcases procFiles_processed env params.paths _ _ _ r hr with h | ⟨p, hp, rfl⟩
      · simp at h
      · exact ⟨p, by rw [rmfFilesToRead, if_neg hlen]; exact hp, rfl⟩

/-- C1.  Workspace-boundary enforcement in `read_many_files`: the list of
files the per-file reading loop receives contains only paths inside the
workspace; every deduplicated glob entry that resolves outside the
workspace is recorded as a security `SkipRecord` in the returned
`skippedFiles` (counted, not silently dropped); and every path reported
as processed is the relative display of some in-workspace path. -/
theorem rmf_workspace_boundary (env : RmfEnv) (params : RmfParams) :
    (∀ p ∈ rmfFilesToRead env, env.isWithinWorkspace p = true) ∧
    (params.paths ++ params.includePats ≠ [] →
      ∀ p ∈ dedupFirst env.globEntries, env.isWithinWorkspace p = false →
        SkipRecord.mk p (secReason p) ∈ (rmfExecute env params).skippedFiles) ∧
    (∀ r ∈ (rmfExecute env params).processedFiles,
      ∃ p, env.isWithinWorkspace p = true ∧ r = env.relPath p) := by
  refine ⟨rmfFilesToRead_within env, ?_, ?_⟩
  · intro hne p hp hout
    obtain ⟨tail, htail⟩ := rmfExecute_skips env params hne
    rw [htail]
    exact List.mem_append.mpr (Or.inl (secRecord_mem_skipsA env p hp hout))
  · intro r hr
    obtain ⟨p, hp, rfl⟩ := rmfExecute_processed env params r hr
    exact ⟨p, rmfFilesToRead_within env p hp, rfl⟩

lemma procFiles_env_irrel (env : RmfEnv) (l : List String) (pats : List String) (n : Nat) :
    ∀ (files : List String) (st : LoopState),
      procFiles { env with globEntries := l } pats n files st =
        procFiles env pats n files st := by
  intro files
  induction files with
  | nil => intro st; rfl
  | cons fp rest ih =>
    intro st
    simp only [procFiles, ih]

/-! ## Inserting an out-of-workspace glob entry only adds its SkipRecord -/

lemma dedupFirst_insert [DecidableEq α] (xs ys : List α) (p : α) (hx : p ∉ xs) (hy : p ∉ ys) :
    dedupFirst (xs ++ p :: ys) = dedupFirst xs ++ p :: dedupSeen (dedupFirst xs) ys ∧
    dedupFirst (xs ++ ys) = dedupFirst xs ++ dedupSeen (dedupFirst xs) ys := by
  have hp1 : p ∉ dedupFirst xs := fun h => hx ((mem_dedupSeen p xs []).1 h).1
  have hirr : dedupSeen (dedupFirst xs ++ [p]) ys = dedupSeen (dedupFirst xs) ys := by
    refine dedupSeen_seen_irrel ys _ _ (fun x hxm => ?_)
    simp only [List.mem_append, List.mem_singleton]
    constructor
    · rintro (h | rfl)
      · exact h
      · exact absurd hxm hy
    · exact Or.inl
  constructor
  · rw [dedupFirst, dedupSeen_append xs (p :: ys) []]
    simp only [List.nil_append]
    rw [show dedupSeen [] xs = dedupFirst xs from rfl]
    rw [dedupSeen, if_neg hp1, hirr]
  · rw [dedupFirst, dedupSeen_append xs ys []]
    simp only [List.nil_append]
    rfl

lemma keepB_globIrrel (env : RmfEnv) (l : List String) :
    keepB { env with globEntries := l } = keepB env := by
  funext q
  simp [keepB, gitSkipB, llxSkipB]

lemma gitSkipB_globIrrel (env : RmfEnv) (l : List String) :
    gitSkipB { env with globEntries := l } = gitSkipB env := by
  funext q
  simp [gitSkipB]

lemma llxSkipB_globIrrel (env : RmfEnv) (l : List String) :
    llxSkipB { env with globEntries := l } = llxSkipB env := by
  funext q
  simp [llxSkipB]

lemma rmfSorted_insert_out (env : RmfEnv) (xs ys : List String) (p : String)
    (hsplit : env.globEntries = xs ++ ys) (hout : env.isWithinWorkspace p = false)
    (hx : p ∉ xs) (hy : p ∉ ys) :
    rmfSorted { env with globEntries := xs ++ p :: ys } = rmfSorted env := by
  obtain ⟨hA1, hA2⟩ := dedupFirst_insert xs ys p hx hy
  have hkp : keepB env p = false := by simp [keepB, hout]
  rw [rmfSorted, rmfSorted, rmfPhaseA_eq, rmfPhaseA_eq]
  simp only [keepB_globIrrel]
  rw [hsplit, hA1, hA2, List.filter_append, List.filter_append, List.filter_cons]
  simp [hkp]

lemma procFiles_congr (env env' : RmfEnv) (pats : List String) (n : Nat)
    (hrel : env'.relPath = env.relPath) (hstat : env'.statSize = env.statSize)
    (hft : env'.fileType = env.fileType) (hrd : env'.readFile = env.readFile)
    (hmaxT : env'.maxTokens = env.maxTokens)
    (hmode : env'.truncateMode = env.truncateMode)
    (hlim : env'.fileSizeLimit = env.fileSizeLimit) :
    ∀ (files : List String) (st : LoopState),
      procFiles env' pats n files st = procFiles env pats n files st := by
  intro files
  induction files with
  | nil => intro st; rfl
  | cons fp rest ih =>
    intro st
    simp only [procFiles, hrel, hstat, hft, hrd, hmaxT, hmode, hlim, ih]

lemma finishRmf_congr (env env' : RmfEnv) (params : RmfParams)
    (files : List String) (s1 s2 : List SkipRecord)
    (hrel : env'.relPath = env.relPath) (hstat : env'.statSize = env.statSize)
    (hft : env'.fileType = env.fileType) (hrd : env'.readFile = env.readFile)
    (hmaxT : env'.maxTokens = env.maxTokens)
    (hmode : env'.truncateMode = env.truncateMode)
    (hlim : env'.fileSizeLimit = env.fileSizeLimit) :
    (finishRmf env' params files s1).llmContent =
        (finishRmf env params files s2).llmContent ∧
    (finishRmf env' params files s1).processedFiles =
        (finishRmf env params files s2).processedFiles := by
  have hc := procFiles_congr env env' params.paths files.length hrel hstat hft hrd hmaxT
    hmode hlim
  constructor
  · rw [finishRmf_llm _ _ _ s1, finishRmf_llm _ _ _ s2]
    simp only [finishRmf, hc]
  · rw [finishRmf_processed, finishRmf_processed, hc]

lemma rmfExecute_congr (env env' : RmfEnv) (params : RmfParams)
    (hsorted : rmfSorted env' = rmfSorted env)
    (hrel : env'.relPath = env.relPath) (hstat : env'.statSize = env.statSize)
    (hft : env'.fileType = env.fileType) (hrd : env'.readFile = env.readFile)
    (hmaxF : env'.maxFileCount = env.maxFileCount)
    (hmaxT : env'.maxTokens = env.maxTokens)
    (hmode : env'.truncateMode = env.truncateMode)
    (hlim : env'.fileSizeLimit = env.fileSizeLimit) :
    (rmfExecute env' params).llmContent = (rmfExecute env params).llmContent ∧
    (rmfExecute env' params).processedFiles = (rmfExecute env params).processedFiles := by
  have hsam : rmfSampled env' = rmfSampled env := by
    simp only [rmfSampled, rmfStep, hsorted, hmaxF]
  by_cases hne : params.paths ++ params.includePats = []
  · simp [rmfExecute, hne]
  · simp only [rmfExecute, if_neg hne, hsorted, hmaxF, hmode, hsam]
    by_cases hlen : (rmfSorted env).length > env.maxFileCount
    · simp only [if_pos hlen]
      cases hm : env.truncateMode with
      | warn => exact ⟨rfl, rfl⟩
      | sample =>
        exact finishRmf_congr env env' params _ _ _ hrel hstat hft hrd hmaxT hmode hlim
      | truncate =>
        exact finishRmf_congr env env' params _ _ _ hrel hstat hft hrd hmaxT hmode hlim
    · simp only [if_neg hlen]
      exact finishRmf_congr env env' params _ _ _ hrel hstat hft hrd hmaxT hmode hlim

/-- C2 (amended).  A glob entry resolving outside the workspace does not
abort the invocation: it is recorded as a security SkipRecord and the
batch continues — the machine content and the processed-file list are
exactly those of the same run without the offending entry. -/
theorem rmf_boundary_violation_continues (env : RmfEnv) (params : RmfParams)
    (xs ys : List String) (p : String)
    (hne : params.paths ++ params.includePats ≠ [])
    (hsplit : env.globEntries = xs ++ ys)
    (hout : env.isWithinWorkspace p = false)
    (hx : p ∉ xs) (hy : p ∉ ys) :
    SkipRecord.mk p (secReason p) ∈
        (rmfExecute { env with globEntries := xs ++ p :: ys } params).skippedFiles ∧
    (rmfExecute { env with globEntries := xs ++ p :: ys } params).llmContent =
        (rmfExecute env params).llmContent ∧
    (rmfExecute { env with globEntries := xs ++ p :: ys } params).processedFiles =
        (rmfExecute env params).processedFiles := by
  have hsorted := rmfSorted_insert_out env xs ys p hsplit hout hx hy
  obtain ⟨hllm, hproc⟩ := rmfExecute_congr env { env with globEntries := xs ++ p :: ys }
    params hsorted rfl rfl rfl rfl rfl rfl rfl rfl
  refine ⟨?_, hllm, hproc⟩
  obtain ⟨tail, htail⟩ :=
    rmfExecute_skips { env with globEntries := xs ++ p :: ys } params hne
  rw [htail]
  refine List.mem_append.mpr (Or.inl (secRecord_mem_skipsA _ p ?_ hout))
  exact (mem_dedupSeen p _ []).2 ⟨by simp, by simp⟩

/-- C3 (amended).  When the candidate count exceeds the limit under the
`warn` policy, `read_many_files` accepts nothing: it returns only the
warning message as `llmContent`, processes no file, and adds no aggregate
SkipRecord (the `skippedFiles` are exactly the ones from entry
filtering). -/
theorem rmf_count_warn_returns_only_warning (env : RmfEnv) (params : RmfParams)
    (hne : params.paths ++ params.includePats ≠ [])
    (hlen : (rmfSorted env).length > env.maxFileCount)
    (hmode : env.truncateMode = TruncMode.warn) :
    rmfExecute env params =
      ⟨.str (countWarnMessage (rmfSorted env).length env.maxFileCount),
        rmfSkipsA env, []⟩ := by
  simp only [rmfExecute, if_neg hne, if_pos hlen, hmode]

/-- C4.  Under the `sample` policy with too many candidates, the file list
the per-file loop receives is exactly the stride selection over the sorted
candidates: the indices `0, step, 2*step, …` below the total (`step` being
`Math.ceil(total / maxItems)`), capped at `maxItems`; and the omitted
count is recorded as one aggregate SkipRecord. -/
theorem rmf_sample_stride (env : RmfEnv) (params : RmfParams)
    (hlen : (rmfSorted env).length > env.maxFileCount)
    (hmode : env.truncateMode = TruncMode.sample) :
    rmfFilesToRead env =
      ((strideList (rmfSorted env).length (rmfStep env) (rmfSorted env).length 0).take
        env.maxFileCount).map (fun j => (rmfSorted env).getD j "") ∧
    (∀ j ∈ strideList (rmfSorted env).length (rmfStep env) (rmfSorted env).length 0,
      j < (rmfSorted env).length ∧ j % rmfStep env = 0) ∧
    rmfStep env = natCeilDiv (rmfSorted env).length env.maxFileCount ∧
    (params.paths ++ params.includePats ≠ [] →
      sampleSkipRec ((rmfSorted env).length - (rmfSampled env).length) env.maxFileCount ∈
        (rmfExecute env params).skippedFiles) := by
  refine ⟨?_, ?_, rfl, ?_⟩
  · rw [rmfFilesToRead]
    simp only [if_pos hlen, hmode]
    rw [rmfSampled, sampleGo_eq]
    simp
  · intro j hj
    have h := strideList_mem _ _ _ _ _ hj
    refine ⟨h.1, ?_⟩
    have := h.2
    simpa using this
  · intro hne
    simp only [rmfExecute, if_neg hne, if_pos hlen, hmode]
    rw [finishRmf_skips]
    refine List.mem_append.mpr (Or.inl (List.mem_append.mpr (Or.inr ?_)))
    simp

/-- C5 (amended).  Under the `truncate` policy, when a text file would
push the accumulated tokens past the budget and more than 100 tokens
remain, the loop appends exactly one part holding a prefix of the file
content that fits the remaining budget plus the truncation marker, counts
the file as processed, records a SkipRecord, and stops — independently of
any remaining files.  (With 100 or fewer tokens remaining the loop stops
without adding anything; see the counterexample.) -/
theorem rmf_token_truncate_behaviour (env : RmfEnv) (pats : List String) (n : Nat)
    (fp : String) (rest : List String) (st : LoopState) (sz : Nat)
    (content : String) (isTrunc : Bool)
    (h1 : env.statSize fp = .ok sz) (h2 : ¬ sz > env.fileSizeLimit)
    (h3 : env.fileType fp = .other)
    (h4 : env.readFile fp = .textContent content isTrunc)
    (h5 : env.truncateMode = .truncate)
    (h6 : st.totalTokens + estimateTokens (contentToAdd fp content isTrunc) > env.maxTokens)
    (h7 : env.maxTokens - st.totalTokens > 100) :
    procFiles env pats n (fp :: rest) st =
      { st with
        parts := st.parts ++ [.str (strTake (contentToAdd fp content isTrunc)
          ((env.maxTokens - st.totalTokens) * 4) ++ tokenTruncMarker)],
        processed := st.processed ++ [env.relPath fp],
        skips := st.skips ++ [⟨env.relPath fp, "content truncated to fit token limit"⟩] } ∧
    estimateTokens (strTake (contentToAdd fp content isTrunc)
        ((env.maxTokens - st.totalTokens) * 4)) ≤ env.maxTokens - st.totalTokens := by
  constructor
  · have hasset : ¬((env.fileType fp = .image ∨ env.fileType fp = .pdf) ∧
        requestedExplicitly pats fp = false) := by
      rintro ⟨h, -⟩
      rw [h3] at h
      rcases h with h | h <;> simp at h
    simp only [procFiles, h1, h4, h5, if_neg h2, if_neg hasset, if_pos h6, if_pos h7]
  · have hlen : (strTake (contentToAdd fp content isTrunc)
        ((env.maxTokens - st.totalTokens) * 4)).length ≤
        (env.maxTokens - st.totalTokens) * 4 := by
      rw [strTake]
      show ((contentToAdd fp content isTrunc).data.take
        ((env.maxTokens - st.totalTokens) * 4)).length ≤ _
      rw [List.length_take]
      exact Nat.min_le_left _ _
    rw [estimateTokens]
    omega

/-- C9.  Idempotence of `read_many_files`: with identical parameters and
an unchanged filesystem/configuration environment (the environment is an
explicit read-only input of the embedding, so "no filesystem changes
between runs" is literally "the same `RmfEnv`"), two runs produce
byte-identical machine content. -/
theorem rmf_two_runs_identical (env1 env2 : RmfEnv) (params1 params2 : RmfParams)
    (henv : env1 = env2) (hp : params1 = params2) :
    (rmfExecute env1 params1).llmContent = (rmfExecute env2 params2).llmContent := by
  rw [henv, hp]

/-! ## The explicit-request gate for image/pdf files -/

lemma basenameNoExt_pre (p : String) :
    ∃ t, (basenameNoExt p).data ++ t = (basenameStrip p (lowerStr (pathExtname p))).data := by
  rw [basenameStrip]
  by_cases hc : lowerStr (pathExtname p) ≠ "" ∧
      (lowerStr (pathExtname p)).data.length < (basenameOf p).data.length ∧
      (lowerStr (pathExtname p)).data.isSuffixOf (basenameOf p).data = true
  · rw [if_pos hc]
    have hlen : (lowerStr (pathExtname p)).data.length =
        (extnameB (basenameOf p).data).length := by
      show ((pathExtname p).data.map Char.toLower).length = _
      rw [List.length_map]
      rfl
    refine ⟨[], ?_⟩
    rw [List.append_nil, basenameNoExt]
    show ((basenameOf p).data.take _) = ((basenameOf p).data.take _)
    rw [hlen]
  · rw [if_neg hc]
    exact ⟨(basenameOf p).data.drop
      ((basenameOf p).data.length - (extnameB (basenameOf p).data).length),
      List.take_append_drop _ _⟩

lemma requested_imp_claim (pats : List String) (fp : String)
    (h : requestedExplicitly pats fp = true) :
    ∃ pat ∈ pats, strIncludes (lowerStr pat) (lowerStr (pathExtname fp)) = true ∨
      strIncludes pat (basenameNoExt fp) = true := by
  rw [requestedExplicitly] at h
  simp only [List.any_eq_true, Bool.or_eq_true] at h
  obtain ⟨pat, hpat, h | h⟩ := h
  · exact ⟨pat, hpat, Or.inl h⟩
  · refine ⟨pat, hpat, Or.inr ?_⟩
    obtain ⟨t, ht⟩ := basenameNoExt_pre fp
    have h2 : strIncludes (basenameStrip fp (lowerStr (pathExtname fp)))
        (basenameNoExt fp) = true := by
      rw [strIncludes]
      exact (subOf_iff _ _).2 ⟨[], t, by rw [← ht]; simp⟩
    exact strIncludes_trans h h2

/-- C10.  The image/pdf gate of `read_many_files` (the loop receives
`params.paths` as its pattern list, so `include` patterns never count):
whenever the file was requested in the source's sense, some `paths`
pattern contains the lower-cased extension (pattern compared lower-cased)
or contains the basename without its extension; and when no pattern
satisfies that condition, the file is skipped with the asset SkipRecord
and processing continues with the remaining files, before any token
accounting for it (total tokens, parts and processed list unchanged). -/
theorem rmf_asset_gate (env : RmfEnv) (pats : List String) (n : Nat) (fp : String)
    (rest : List String) (st : LoopState) (sz : Nat)
    (h1 : env.statSize fp = .ok sz) (h2 : ¬ sz > env.fileSizeLimit)
    (h3 : env.fileType fp = .image ∨ env.fileType fp = .pdf) :
    (requestedExplicitly pats fp = true →
      ∃ pat ∈ pats, strIncludes (lowerStr pat) (lowerStr (pathExtname fp)) = true ∨
        strIncludes pat (basenameNoExt fp) = true) ∧
    (¬ (∃ pat ∈ pats, strIncludes (lowerStr pat) (lowerStr (pathExtname fp)) = true ∨
        strIncludes pat (basenameNoExt fp) = true) →
      procFiles env pats n (fp :: rest) st =
        procFiles env pats n rest
          { st with skips := st.skips ++ [⟨env.relPath fp, assetSkipReason⟩] }) := by
  refine ⟨requested_imp_claim pats fp, ?_⟩
  intro hA
  have hreq : requestedExplicitly pats fp = false := by
    cases hreq : requestedExplicitly pats fp
    · rfl
    · exact absurd (requested_imp_claim pats fp hreq) hA
  simp only [procFiles, h1, if_neg h2, if_pos (show _ ∧ _ from ⟨h3, hreq⟩)]

/-! ## The upward scan records readable files at exactly the visited levels -/

lemma upwardScanAux_eq (fs : MemFS) (cfg : SegPath) (fname : String) (g stop : SegPath) :
    ∀ (fuel : Nat) (cur : SegPath),
      upwardScanAux fs cfg fname g stop fuel cur =
        (upwardVisitedAux cfg stop fuel cur).filterMap (fun d =>
          if fs.accessOk (d ++ [fname]) = true ∧ d ++ [fname] ≠ g
          then some (d ++ [fname]) else none) := by
  intro fuel
  induction fuel with
  | zero => intro cur; simp [upwardScanAux, upwardVisitedAux]
  | succ fuel ihf =>
    intro cur
    simp only [upwardScanAux, upwardVisitedAux]
    by_cases h1 : cur = []
    · simp [h1]
    · rw [if_neg h1, if_neg h1]
      by_cases h2 : cur = cfg
      · simp [h2]
      · rw [if_neg h2, if_neg h2]
        by_cases h3 : cur = stop
        · rw [if_pos h3, if_pos h3]
          by_cases h4 : fs.accessOk (cur ++ [fname]) = true ∧ cur ++ [fname] ≠ g
          · simp [h4]
          · simp [h4]
        · rw [if_neg h3, if_neg h3]
          rw [List.filterMap_append, ihf cur.dropLast]
          congr 1
          by_cases h4 : fs.accessOk (cur ++ [fname]) = true ∧ cur ++ [fname] ≠ g
          · simp [h4]
          · simp [h4]

/-- C7 (amended).  The upward scan, with the ultimate stop directory the
source computes (the parent of the version-control root when a `.git`
marker is found, otherwise the parent of the user home), records exactly
the readable context files, distinct from the global file, at the visited
levels — where the visited levels (`upwardVisited`, root-to-leaf) are the
chain of parents of the start directory, stopping inclusively at the
ultimate stop directory and exclusively at the filesystem root or the
global config directory. -/
theorem upward_scan_characterisation (fs : MemFS) (dir home : SegPath)
    (cfgDir fname : String) :
    upwardScan fs (home ++ [cfgDir]) fname (home ++ [cfgDir, fname])
        (ultimateStopOf fs dir home) dir =
      (upwardVisited (home ++ [cfgDir]) (ultimateStopOf fs dir home) dir).filterMap
        (fun d =>
          if fs.accessOk (d ++ [fname]) = true ∧ d ++ [fname] ≠ home ++ [cfgDir, fname]
          then some (d ++ [fname]) else none) :=
  upwardScanAux_eq fs (home ++ [cfgDir]) fname (home ++ [cfgDir, fname])
    (ultimateStopOf fs dir home) dir.length dir

/-- C7 (counterexample to the claim as stated).  With no version-control
marker anywhere (`findProjectRoot` returns `null`), a readable context
file exists at `/h` — an ancestor level of the start directory
`/h/u/d/p` strictly below the filesystem root — yet the upward scan
records nothing, because it stops at the parent `/h/u` of the user home
`/h/u/d` instead of walking on to the filesystem root. -/
theorem upward_scan_stops_before_root_counterexample :
    findProjectRoot fsC7 ["h", "u", "d", "p"] = none ∧
    fsC7.accessOk (["h"] ++ ["CTX"]) = true ∧
    (["h", "u", "d", "p"] : SegPath).take 1 = ["h"] ∧
    ultimateStopOf fsC7 ["h", "u", "d", "p"] ["h", "u", "d"] = ["h", "u"] ∧
    upwardScan fsC7 (["h", "u", "d"] ++ ["llx"]) "CTX" (["h", "u", "d"] ++ ["llx", "CTX"])
      (ultimateStopOf fsC7 ["h", "u", "d", "p"] ["h", "u", "d"]) ["h", "u", "d", "p"] = [] := by
  refine ⟨?_, ?_, ?_, ?_, ?_⟩ <;> decide

/-! ## Discovery order for a single context filename -/

lemma addUnique_nil [DecidableEq α] (x : α) : addUnique ([] : List α) x = [x] := by
  simp [addUnique]

/-- C6.  For a single context filename with a readable global file, the
discovered path list is the insertion-ordered deduplication of: the
global file first, then the upward-scan results (root-to-leaf), then the
lexicographically sorted downward-scan results, then the
extension-provided paths appended last; and the final list has no
duplicates. -/
theorem ctx_paths_order (fs : MemFS) (dir home : SegPath) (cfgDir fname : String)
    (extPaths : List SegPath)
    (hg : fs.accessOk (home ++ [cfgDir, fname]) = true) :
    forEachDir fs dir home cfgDir [fname] extPaths =
      dedupFirst ([home ++ [cfgDir, fname]] ++
        upwardScan fs (home ++ [cfgDir]) fname (home ++ [cfgDir, fname])
          (ultimateStopOf fs dir home) dir ++
        sortPaths (fs.bfs dir fname) ++ extPaths) ∧
    (forEachDir fs dir home cfgDir [fname] extPaths).Nodup := by
  have main : forEachDir fs dir home cfgDir [fname] extPaths =
      dedupFirst ([home ++ [cfgDir, fname]] ++
        upwardScan fs (home ++ [cfgDir]) fname (home ++ [cfgDir, fname])
          (ultimateStopOf fs dir home) dir ++
        sortPaths (fs.bfs dir fname) ++ extPaths) := by
    rw [forEachDir]
    simp only [List.foldl_cons, List.foldl_nil]
    rw [if_pos hg, addUnique_nil]
    rw [foldl_addUnique, foldl_addUnique, foldl_addUnique]
    rw [dedupFirst, dedupSeen_append, dedupSeen_append, dedupSeen_append]
    have hgg : dedupSeen ([] : List SegPath) [home ++ [cfgDir, fname]] =
        [home ++ [cfgDir, fname]] := by simp [dedupSeen]
    simp only [List.nil_append, hgg]
  refine ⟨main, ?_⟩
  rw [main, dedupFirst]
  exact dedupSeen_nodup _ _

/-! ## loadServerHierarchicalMemory: blocks and file count -/

/-- C8 (amended).  The concatenated memory document wraps each file whose
content was read and is non-empty after trimming in the
`--- Context from: <path> ---` delimiters (files with failed reads or
empty trims contribute no block), joined by blank lines; but `fileCount`
is the number of *discovered* context files — including those with null
or empty-after-trim content — not the number contributing content. -/
theorem mem_load_blocks (fs : MemFS) (cwd : SegPath) (includeDirs : List SegPath)
    (home : SegPath) (cfgDir : String) (filenames : List String)
    (extPaths : List SegPath) :
    (loadServerHierarchicalMemory fs cwd includeDirs home cfgDir filenames
        extPaths).fileCount =
      (getContextFilePathsInternal fs cwd includeDirs home cfgDir filenames
        extPaths).length ∧
    (loadServerHierarchicalMemory fs cwd includeDirs home cfgDir filenames
        extPaths).memoryContent =
      String.intercalate "\n\n"
        ((readContextFiles fs (getContextFilePathsInternal fs cwd includeDirs home cfgDir
            filenames extPaths)).filterMap (fun item =>
          match item.content with
          | none => none
          | some c =>
            if strTrim c = "" then none
            else some (contextBlock fs item.filePath (strTrim c)))) := by
  rw [loadServerHierarchicalMemory]
  by_cases h : getContextFilePathsInternal fs cwd includeDirs home cfgDir filenames
      extPaths = []
  · rw [if_pos h, h]
    exact ⟨rfl, rfl⟩
  · rw [if_neg h]
    constructor
    · show (readContextFiles fs _).length = _
      rw [readContextFiles, List.length_map]
    · rfl

/-- C8 (counterexample to the claim as stated).  A discovered global
context file whose read fails contributes no block — the concatenated
document is empty — yet `fileCount` is `1`, not the number of files
contributing content (`0`). -/
theorem mem_load_fileCount_counterexample :
    loadServerHierarchicalMemory fsC8 ["h", "p"] [] ["h"] "cfg" ["CTX"] [] =
      ⟨"", 1⟩ := by decide

/-! ## Concrete counterexamples and witnesses -/

/-- C2 (counterexample to the claim as stated).  A glob entry outside the
workspace does not abort the invocation: the run still reads and returns
the in-workspace file and merely records the outside path. -/
theorem rmf_security_no_abort_counterexample :
    probeEnv.isWithinWorkspace "/out/x.txt" = false ∧
    "/out/x.txt" ∈ probeEnv.globEntries ∧
    (rmfExecute probeEnv ⟨["*"], []⟩).skippedFiles =
      [⟨"/out/x.txt", secReason "/out/x.txt"⟩] ∧
    (rmfExecute probeEnv ⟨["*"], []⟩).processedFiles = ["/w/a.txt"] ∧
    (rmfExecute probeEnv ⟨["*"], []⟩).llmContent =
      .parts [.str "--- /w/a.txt ---\n\nhello\n\n"] := by decide

/-- C3 (counterexample to the claim as stated).  Two candidates against a
one-file limit under `warn`: the run returns only the warning string —
no candidate is accepted, no content is returned, and no aggregate
SkipRecord is recorded. -/
theorem rmf_count_warn_counterexample :
    envC3.truncateMode = .warn ∧ (rmfSorted envC3).length = 2 ∧ envC3.maxFileCount = 1 ∧
    (rmfExecute envC3 ⟨["*"], []⟩).processedFiles = [] ∧
    (rmfExecute envC3 ⟨["*"], []⟩).skippedFiles = [] ∧
    (rmfExecute envC3 ⟨["*"], []⟩).llmContent = .str (countWarnMessage 2 1) := by decide

set_option maxRecDepth 100000 in
/-- C5 (counterexample to the claim as stated).  A file whose cost
exceeds the budget under `truncate`, but with only 50 (at most 100)
tokens remaining: no prefix and no truncation marker are included — the
run returns the no-files fallback and records nothing. -/
theorem rmf_token_truncate_counterexample :
    envC5b.truncateMode = .truncate ∧
    0 + estimateTokens (contentToAdd "/w/a.txt" contentC5b false) > envC5b.maxTokens ∧
    envC5b.maxTokens - 0 ≤ 100 ∧
    rmfFilesToRead envC5b = ["/w/a.txt"] ∧
    rmfExecute envC5b ⟨["*"], []⟩ = ⟨.parts [.str noFilesMsg], [], []⟩ := by decide

theorem rmf_workspace_boundary_witness :
    SkipRecord.mk "/out/x.txt" (secReason "/out/x.txt") ∈
      (rmfExecute probeEnv ⟨["*"], []⟩).skippedFiles :=
  (rmf_workspace_boundary probeEnv ⟨["*"], []⟩).2.1 (by decide) "/out/x.txt"
    (by decide) (by decide)

theorem rmf_boundary_violation_continues_witness :
    SkipRecord.mk "/out/x.txt" (secReason "/out/x.txt") ∈
      (rmfExecute { envC2 with globEntries := ["/w/a.txt"] ++ "/out/x.txt" :: [] }
        ⟨["*"], []⟩).skippedFiles ∧
    (rmfExecute { envC2 with globEntries := ["/w/a.txt"] ++ "/out/x.txt" :: [] }
        ⟨["*"], []⟩).llmContent = (rmfExecute envC2 ⟨["*"], []⟩).llmContent := by
  have h := rmf_boundary_violation_continues envC2 ⟨["*"], []⟩ ["/w/a.txt"] [] "/out/x.txt"
    (by decide) rfl (by decide) (by decide) (by decide)
  exact ⟨h.1, h.2.1⟩

theorem rmf_count_warn_witness :
    rmfExecute envC3 ⟨["a", "b"], []⟩ = ⟨.str (countWarnMessage 2 1), [], []⟩ := by
  have h := rmf_count_warn_returns_only_warning envC3 ⟨["a", "b"], []⟩ (by decide)
    (by decide) (by decide)
  rw [h]
  decide

set_option maxRecDepth 100000 in
theorem rmf_sample_stride_witness :
    rmfFilesToRead envC4 = ["/w/f00", "/w/f04", "/w/f08", "/w/f12", "/w/f16"] ∧
    sampleSkipRec 15 5 ∈ (rmfExecute envC4 ⟨["*"], []⟩).skippedFiles := by
  have h := rmf_sample_stride envC4 ⟨["*"], []⟩ (by decide) (by decide)
  constructor
  · rw [h.1]
    decide
  · have h2 := h.2.2.2 (by decide)
    have he : sampleSkipRec ((rmfSorted envC4).length - (rmfSampled envC4).length)
        envC4.maxFileCount = sampleSkipRec 15 5 := by decide
    rw [he] at h2
    exact h2

set_option maxRecDepth 100000 in
theorem rmf_token_truncate_witness :
    procFiles envC5a ["*"] 1 ["/w/a.txt"] ⟨0, [], [], []⟩ =
      ⟨0, [.str (strTake (contentToAdd "/w/a.txt" contentC5a false) 800 ++ tokenTruncMarker)],
        ["/w/a.txt"], [⟨"/w/a.txt", "content truncated to fit token limit"⟩]⟩ ∧
    estimateTokens (strTake (contentToAdd "/w/a.txt" contentC5a false) 800) ≤ 200 :=
  rmf_token_truncate_behaviour envC5a ["*"] 1 "/w/a.txt" [] ⟨0, [], [], []⟩
    10 contentC5a false (by decide) (by decide) (by decide) (by decide) (by decide)
    (by decide) (by decide)

theorem rmf_two_runs_identical_witness :
    (rmfExecute probeEnv ⟨["*"], []⟩).llmContent =
      (rmfExecute probeEnv ⟨["*"], []⟩).llmContent :=
  rmf_two_runs_identical probeEnv probeEnv ⟨["*"], []⟩ ⟨["*"], []⟩ rfl rfl

theorem rmf_asset_gate_witness :
    procFiles envC10 ["docs"] 1 ["/w/img.png"] ⟨0, [], [], []⟩ =
      ⟨0, [], [], [⟨"/w/img.png", assetSkipReason⟩]⟩ := by
  have h := (rmf_asset_gate envC10 ["docs"] 1 "/w/img.png" [] ⟨0, [], [], []⟩ 10
    (by decide) (by decide) (by decide)).2 (by decide)
  rw [h]
  decide

theorem ctx_paths_order_witness :
    fsC6.accessOk (["h"] ++ ["cfg", "CTX"]) = true ∧
    forEachDir fsC6 ["h", "r", "w"] ["h"] "cfg" ["CTX"] [["e", "CTX"]] =
      [["h", "cfg", "CTX"], ["h", "r", "CTX"], ["h", "r", "w", "d", "CTX"],
        ["e", "CTX"]] := by
  refine ⟨by decide, ?_⟩
  have h := (ctx_paths_order fsC6 ["h", "r", "w"] ["h"] "cfg" "CTX" [["e", "CTX"]]
    (by decide)).1
  rw [h]
  decide
